import Mathlib

/-!
# Verification of the Reality Fork version-control engine

Shallow embedding of the version-control core of the repository
(`reality-fork/src/utils/versionControl.js`, `reality-fork/src/hooks/useVersionControl.js`,
the backend `versionController.js` with the mongoose `Version` schema, and the shared
backend `utils/versionControl.js`), together with proofs about diff, three-way merge,
common-ancestor resolution, branch creation, commit creation and hard rollback.

JavaScript objects holding the document data are modelled as association lists
`List (String × Val)` preserving insertion order (JS objects preserve key insertion
order and have unique keys).  `JSON.stringify`-based deep equality of values is
modelled by structural (decidable) equality on the inductive `Val` type of
serializable JSON values, on which `stringify` is injective.  Absent keys are
modelled by `Option`: `lookupE d k = none` corresponds to `data[key] === undefined`.
-/

set_option maxHeartbeats 1000000

namespace RealityFork

mutual
/-- A serializable JSON value (the values stored in a version's `data` object).
Numbers are modelled as integers; none of the verified code inspects numeric
values beyond (in)equality. -/
inductive Val where
  | vnull
  | vbool (b : Bool)
  | vnum (n : Int)
  | vstr (s : String)
  | varr (xs : ValList)
  | vobj (fs : ValFields)
deriving DecidableEq
/-- A JSON array payload. -/
inductive ValList where
  | nil
  | cons (x : Val) (xs : ValList)
deriving DecidableEq
/-- A nested JSON object payload. -/
inductive ValFields where
  | nil
  | cons (k : String) (v : Val) (fs : ValFields)
deriving DecidableEq
end

/-- A version's `data`: a JS object, i.e. an insertion-ordered association list
from string keys to values. -/
abbrev Data := List (String × Val)

/-- `d[k]` on a JS object: the value at key `k`, `none` when the key is absent. -/
def lookupE {β : Type} : List (String × β) → String → Option β
  | [], _ => none
  | (k', v) :: rest, k => if k' = k then some v else lookupE rest k

/-- `d[k] = v` on a JS object: replaces the value in place when the key exists
(JS objects keep the original key position on re-assignment), otherwise appends
the new pair at the end. -/
def setEntry {β : Type} : List (String × β) → String → β → List (String × β)
  | [], k, v => [(k, v)]
  | p :: rest, k, v => if p.1 = k then (k, v) :: rest else p :: setEntry rest k v

/-- `delete d[k]` on a JS object. -/
def delEntry {β : Type} (d : List (String × β)) (k : String) : List (String × β) :=
  d.filter (fun p => ¬ (p.1 = k))

/-- `Object.keys d` (with possible duplicates if the list is not well-formed). -/
def keysOf {β : Type} (d : List (String × β)) : List String := d.map Prod.fst

/-- Helper for `dedupFirst`: walk the list keeping the first occurrence of each
element, tracking the already seen elements. -/
def dedupGo : List String → List String → List String
  | [], _ => []
  | k :: ks, seen => if k ∈ seen then dedupGo ks seen else k :: dedupGo ks (k :: seen)

/-- `new Set(l)` iterated in insertion order: deduplication keeping the first
occurrence of each element. -/
def dedupFirst (l : List String) : List String := dedupGo l []

/-! ## Lemmas about the object primitives -/

theorem lookupE_setEntry_self {β : Type} (d : List (String × β)) (k : String) (v : β) :
    lookupE (setEntry d k v) k = some v := by
  induction d with
  | nil => simp [setEntry, lookupE]
  | cons p rest ih =>
    by_cases hp : p.1 = k
    · simp [setEntry, hp, lookupE]
    · simp [setEntry, hp, lookupE, ih]

theorem lookupE_setEntry_ne {β : Type} (d : List (String × β)) (k k' : String) (v : β)
    (h : k' ≠ k) : lookupE (setEntry d k v) k' = lookupE d k' := by
  induction d with
  | nil => simp [setEntry, lookupE, if_neg (Ne.symm h)]
  | cons p rest ih =>
    by_cases hp : p.1 = k
    · simp only [setEntry, if_pos hp, lookupE, hp, if_neg (Ne.symm h)]
    · simp only [setEntry, if_neg hp, lookupE]
      split
      · rfl
      · exact ih

theorem delEntry_cons_of_eq {β : Type} (p : String × β) (rest : List (String × β))
    (k : String) (hp : p.1 = k) : delEntry (p :: rest) k = delEntry rest k := by
  simp [delEntry, List.filter_cons, hp]

theorem delEntry_cons_of_ne {β : Type} (p : String × β) (rest : List (String × β))
    (k : String) (hp : ¬ p.1 = k) : delEntry (p :: rest) k = p :: delEntry rest k := by
  simp [delEntry, List.filter_cons, hp]

theorem lookupE_delEntry_self {β : Type} (d : List (String × β)) (k : String) :
    lookupE (delEntry d k) k = none := by
  induction d with
  | nil => rfl
  | cons p rest ih =>
    by_cases hp : p.1 = k
    · rw [delEntry_cons_of_eq p rest k hp]
      exact ih
    · rw [delEntry_cons_of_ne p rest k hp]
      simp only [lookupE, if_neg hp]
      exact ih

theorem lookupE_delEntry_ne {β : Type} (d : List (String × β)) (k k' : String)
    (h : k' ≠ k) : lookupE (delEntry d k) k' = lookupE d k' := by
  induction d with
  | nil => rfl
  | cons p rest ih =>
    by_cases hp : p.1 = k
    · rw [delEntry_cons_of_eq p rest k hp, ih]
      simp only [lookupE]
      rw [if_neg (by rw [hp]; exact Ne.symm h)]
    · rw [delEntry_cons_of_ne p rest k hp]
      simp only [lookupE]
      split
      · rfl
      · exact ih

theorem lookupE_eq_none_iff {β : Type} (d : List (String × β)) (k : String) :
    lookupE d k = none ↔ k ∉ keysOf d := by
  induction d with
  | nil => simp [lookupE, keysOf]
  | cons p rest ih =>
    simp only [lookupE, keysOf, List.map_cons, List.mem_cons]
    by_cases hp : p.1 = k
    · simp [hp]
    · simp only [if_neg hp]
      rw [ih]
      simp only [keysOf]
      constructor
      · intro h hk
        rcases hk with hk | hk
        · exact hp hk.symm
        · exact h hk
      · intro h hk
        exact h (Or.inr hk)

theorem lookupE_isSome_iff {β : Type} (d : List (String × β)) (k : String) :
    (lookupE d k).isSome = true ↔ k ∈ keysOf d := by
  rcases hl : lookupE d k with _ | v
  · simp only [Option.isSome_none, Bool.false_eq_true, false_iff]
    exact (lookupE_eq_none_iff d k).mp hl
  · simp only [Option.isSome_some, true_iff]
    by_contra hk
    rw [← lookupE_eq_none_iff] at hk
    rw [hk] at hl
    exact Option.noConfusion hl

theorem mem_dedupGo {l seen : List String} {k : String} :
    k ∈ dedupGo l seen ↔ k ∈ l ∧ k ∉ seen := by
  induction l generalizing seen with
  | nil => simp [dedupGo]
  | cons k0 ks ih =>
    by_cases h0 : k0 ∈ seen
    · rw [dedupGo, if_pos h0, ih]
      simp only [List.mem_cons]
      constructor
      · rintro ⟨hk, hs⟩
        exact ⟨Or.inr hk, hs⟩
      · rintro ⟨hk | hk, hs⟩
        · exact absurd (hk ▸ h0) hs
        · exact ⟨hk, hs⟩
    · rw [dedupGo, if_neg h0]
      simp only [List.mem_cons, ih, List.mem_cons, not_or]
      constructor
      · rintro (rfl | ⟨hk, hne, hs⟩)
        · exact ⟨Or.inl rfl, h0⟩
        · exact ⟨Or.inr hk, hs⟩
      · rintro ⟨hk | hk, hs⟩
        · exact Or.inl hk
        · by_cases hne : k = k0
          · exact Or.inl hne
          · exact Or.inr ⟨hk, hne, hs⟩

theorem mem_dedupFirst {l : List String} {k : String} : k ∈ dedupFirst l ↔ k ∈ l := by
  rw [dedupFirst, mem_dedupGo]
  simp

theorem nodup_dedupGo (l : List String) : ∀ seen, (dedupGo l seen).Nodup := by
  induction l with
  | nil => intro seen; simp [dedupGo]
  | cons k0 ks ih =>
    intro seen
    by_cases h0 : k0 ∈ seen
    · rw [dedupGo, if_pos h0]
      exact ih seen
    · rw [dedupGo, if_neg h0]
      refine List.nodup_cons.mpr ⟨?_, ih (k0 :: seen)⟩
      intro hmem
      rw [mem_dedupGo] at hmem
      exact hmem.2 (List.mem_cons_self _ _)

theorem nodup_dedupFirst (l : List String) : (dedupFirst l).Nodup :=
  nodup_dedupGo l []

/-- Membership in the deduplicated key list of an object is lookup success. -/
theorem mem_dedupFirst_keysOf_iff {β : Type} (d : List (String × β)) (k : String) :
    k ∈ dedupFirst (keysOf d) ↔ (lookupE d k).isSome = true := by
  rw [mem_dedupFirst, lookupE_isSome_iff]

/-- An object built by iterating a key list in order and conditionally inserting a
value at each key (`ks.forEach(k => { if (h k) obj[k] = h k })`). -/
def tableOf {β : Type} (ks : List String) (h : String → Option β) : List (String × β) :=
  ks.filterMap (fun k => (h k).map (fun v => (k, v)))

theorem lookupE_tableOf {β : Type} (ks : List String) (h : String → Option β)
    (k : String) (hnd : ks.Nodup) :
    lookupE (tableOf ks h) k = if k ∈ ks then h k else none := by
  induction ks with
  | nil => simp [tableOf, lookupE]
  | cons k0 ks ih =>
    rcases List.nodup_cons.mp hnd with ⟨hk0, hnd'⟩
    rw [show tableOf (k0 :: ks) h =
        (match h k0 with
          | none => tableOf ks h
          | some v => (k0, v) :: tableOf ks h) from by
      simp only [tableOf, List.filterMap_cons]
      rcases h k0 with _ | v <;> simp]
    rcases hk : h k0 with _ | v
    · rw [ih hnd']
      by_cases hmem : k = k0
      · subst hmem
        simp [hk, hk0]
      · simp only [List.mem_cons, hmem, false_or]
    · simp only [lookupE]
      by_cases hmem : k0 = k
      · subst hmem
        simp [hk]
      · rw [if_neg hmem, ih hnd']
        by_cases hm : k ∈ ks
        · rw [if_pos hm, if_pos (List.mem_cons_of_mem _ hm)]
        · rw [if_neg hm, if_neg (by
            intro hc
            rcases List.mem_cons.mp hc with hc | hc
            · exact hmem hc.symm
            · exact hm hc)]

theorem tableOf_eq_nil {β : Type} (ks : List String) (h : String → Option β)
    (hall : ∀ k ∈ ks, h k = none) : tableOf ks h = [] := by
  rw [tableOf, List.filterMap_eq_nil_iff]
  intro k hk
  rw [hall k hk]
  rfl

theorem tableOf_keys {β : Type} (ks : List String) (h : String → Option β)
    (hall : ∀ k ∈ ks, (h k).isSome = true) :
    (tableOf ks h).map Prod.fst = ks := by
  induction ks with
  | nil => rfl
  | cons k0 ks ih =>
    have h0 := hall k0 (List.mem_cons_self _ _)
    rcases hk : h k0 with _ | v
    · rw [hk] at h0; simp at h0
    · simp only [tableOf, List.filterMap_cons, hk, Option.map_some']
      simp only [List.map_cons]
      rw [show List.filterMap (fun k => (h k).map (fun v => (k, v))) ks = tableOf ks h from rfl]
      rw [ih (fun k hkm => hall k (List.mem_cons_of_mem _ hkm))]

/-! ## The data model: Versions

`Version` models the frontend version record (`createVersion` in
`reality-fork/src/utils/versionControl.js`) and equally the backend mongoose
`Version` document (whose unique identifier is stored under the field name
`versionId` instead of `id`).  Timestamps (`new Date(...)` / ISO strings) are
modelled as naturals ordered as the dates are. -/
structure Version where
  id : String
  parentId : Option String
  mergeParentId : Option String
  data : Data
  timestamp : Nat
  message : String
  author : String
deriving DecidableEq

/-! ## Diff Engine

Embedding of `getDiff` from `reality-fork/src/utils/versionControl.js` (lines
30–74): `added` collects the keys of `version2.data` missing from
`version1.data`, `removed` the keys of `version1.data` missing from
`version2.data`, and each key present in both lands in `modified` (as a
`(before, after)` pair of whole values) or `unchanged` according to
`JSON.stringify` equality of the two values. -/
structure DiffResult where
  added : List (String × Val)
  removed : List (String × Val)
  modified : List (String × (Val × Val))
  unchanged : List (String × Val)
deriving DecidableEq

/-- The body of `getDiff`, on the two `data` objects. -/
def diffCore (data1 data2 : Data) : DiffResult :=
  let keys1 := dedupFirst (keysOf data1)
  let keys2 := dedupFirst (keysOf data2)
  { added := tableOf keys2 (fun k => if k ∈ keys1 then none else lookupE data2 k)
    removed := tableOf keys1 (fun k => if k ∈ keys2 then none else lookupE data1 k)
    modified := tableOf keys1 (fun k =>
      if k ∈ keys2 then
        match lookupE data1 k, lookupE data2 k with
        | some a, some b => if a = b then none else some (a, b)
        | _, _ => none
      else none)
    unchanged := tableOf keys1 (fun k =>
      if k ∈ keys2 then
        match lookupE data1 k, lookupE data2 k with
        | some a, some b => if a = b then some a else none
        | _, _ => none
      else none) }

/-- `getDiff(version1, version2)`. -/
def getDiff (version1 version2 : Version) : DiffResult :=
  diffCore version1.data version2.data

theorem lookupE_diffCore_added (data1 data2 : Data) (k : String) :
    lookupE (diffCore data1 data2).added k =
      match lookupE data1 k, lookupE data2 k with
      | none, some w => some w
      | _, _ => none := by
  rw [show (diffCore data1 data2).added = tableOf (dedupFirst (keysOf data2))
      (fun k => if k ∈ dedupFirst (keysOf data1) then none else lookupE data2 k) from rfl]
  rw [lookupE_tableOf _ _ _ (nodup_dedupFirst _)]
  rcases hl1 : lookupE data1 k with _ | a <;> rcases hl2 : lookupE data2 k with _ | b <;>
    simp [mem_dedupFirst_keysOf_iff, hl1, hl2]

theorem lookupE_diffCore_removed (data1 data2 : Data) (k : String) :
    lookupE (diffCore data1 data2).removed k =
      match lookupE data1 k, lookupE data2 k with
      | some w, none => some w
      | _, _ => none := by
  rw [show (diffCore data1 data2).removed = tableOf (dedupFirst (keysOf data1))
      (fun k => if k ∈ dedupFirst (keysOf data2) then none else lookupE data1 k) from rfl]
  rw [lookupE_tableOf _ _ _ (nodup_dedupFirst _)]
  rcases hl1 : lookupE data1 k with _ | a <;> rcases hl2 : lookupE data2 k with _ | b <;>
    simp [mem_dedupFirst_keysOf_iff, hl1, hl2]

theorem lookupE_diffCore_modified (data1 data2 : Data) (k : String) :
    lookupE (diffCore data1 data2).modified k =
      match lookupE data1 k, lookupE data2 k with
      | some a, some b => if a = b then none else some (a, b)
      | _, _ => none := by
  rw [show (diffCore data1 data2).modified = tableOf (dedupFirst (keysOf data1))
      (fun k => if k ∈ dedupFirst (keysOf data2) then
          match lookupE data1 k, lookupE data2 k with
          | some a, some b => if a = b then none else some (a, b)
          | _, _ => none
        else none) from rfl]
  rw [lookupE_tableOf _ _ _ (nodup_dedupFirst _)]
  rcases hl1 : lookupE data1 k with _ | a <;> rcases hl2 : lookupE data2 k with _ | b <;>
    simp [mem_dedupFirst_keysOf_iff, hl1, hl2]

theorem lookupE_diffCore_unchanged (data1 data2 : Data) (k : String) :
    lookupE (diffCore data1 data2).unchanged k =
      match lookupE data1 k, lookupE data2 k with
      | some a, some b => if a = b then some a else none
      | _, _ => none := by
  rw [show (diffCore data1 data2).unchanged = tableOf (dedupFirst (keysOf data1))
      (fun k => if k ∈ dedupFirst (keysOf data2) then
          match lookupE data1 k, lookupE data2 k with
          | some a, some b => if a = b then some a else none
          | _, _ => none
        else none) from rfl]
  rw [lookupE_tableOf _ _ _ (nodup_dedupFirst _)]
  rcases hl1 : lookupE data1 k with _ | a <;> rcases hl2 : lookupE data2 k with _ | b <;>
    simp [mem_dedupFirst_keysOf_iff, hl1, hl2]

/-- Diffing a data object against itself produces no added, removed or modified
entries (shared by the reflexivity and hard-rollback claims). -/
theorem diffCore_self (d : Data) :
    (diffCore d d).added = [] ∧ (diffCore d d).removed = [] ∧
      (diffCore d d).modified = [] := by
  refine ⟨?_, ?_, ?_⟩
  · exact tableOf_eq_nil _ _ (fun k hk => if_pos hk)
  · exact tableOf_eq_nil _ _ (fun k hk => if_pos hk)
  · refine tableOf_eq_nil _ _ (fun k hk => ?_)
    rw [if_pos hk]
    rcases hl : lookupE d k with _ | a
    · rfl
    · simp

/-- **C4.** For every pair of versions `v1, v2` and key `k`, `getDiff` records `k`
under `added` exactly when it is present only in `v2` (with `v2`'s value), under
`removed` exactly when present only in `v1` (with `v1`'s value), under `modified`
exactly when present in both with structurally unequal values — as a
`(before, after)` pair carrying the two whole values, so a value's internal
structure is never descended into — and under `unchanged` exactly when present in
both with equal values. -/
theorem C4_diff_classification (v1 v2 : Version) (k : String) :
    (lookupE (getDiff v1 v2).added k =
      match lookupE v1.data k, lookupE v2.data k with
      | none, some w => some w
      | _, _ => none)
    ∧ (lookupE (getDiff v1 v2).removed k =
      match lookupE v1.data k, lookupE v2.data k with
      | some w, none => some w
      | _, _ => none)
    ∧ (lookupE (getDiff v1 v2).modified k =
      match lookupE v1.data k, lookupE v2.data k with
      | some a, some b => if a = b then none else some (a, b)
      | _, _ => none)
    ∧ (lookupE (getDiff v1 v2).unchanged k =
      match lookupE v1.data k, lookupE v2.data k with
      | some a, some b => if a = b then some a else none
      | _, _ => none) :=
  ⟨lookupE_diffCore_added v1.data v2.data k,
   lookupE_diffCore_removed v1.data v2.data k,
   lookupE_diffCore_modified v1.data v2.data k,
   lookupE_diffCore_unchanged v1.data v2.data k⟩

/-- **C6.** For every version `v`, `diff(v, v)` has empty `added`, `removed` and
`modified` maps, and its `unchanged` map has exactly the key set of `v.data`. -/
theorem C6_diff_reflexive (v : Version) :
    (getDiff v v).added = [] ∧ (getDiff v v).removed = [] ∧
      (getDiff v v).modified = [] ∧
      (getDiff v v).unchanged.map Prod.fst = dedupFirst (keysOf v.data) ∧
      (∀ k, k ∈ (getDiff v v).unchanged.map Prod.fst ↔ k ∈ keysOf v.data) := by
  obtain ⟨ha, hr, hm⟩ := diffCore_self v.data
  have hu : (getDiff v v).unchanged.map Prod.fst = dedupFirst (keysOf v.data) := by
    refine tableOf_keys _ _ (fun k hk => ?_)
    rw [if_pos hk]
    rw [mem_dedupFirst_keysOf_iff] at hk
    rcases hl : lookupE v.data k with _ | a
    · rw [hl] at hk; simp at hk
    · simp
  refine ⟨ha, hr, hm, hu, fun k => ?_⟩
  rw [hu, mem_dedupFirst]

/-! ## Merge Engine

Embedding of `mergeVersions` from `reality-fork/src/utils/versionControl.js`
(lines 83–193).  The function copies the base data, walks the union of the three
key sets in insertion order mutating the copy (cases 1–4 of the source; cases 5
and 6 of the source are unreachable because cases 1–4 already exhaust all
combinations of `val1/val2` being `stringify`-equal to `baseVal`), collects
conflicts in order, finally deletes every conflicting key from the merged data,
and reports success iff the conflict list is empty. -/
structure Conflict where
  key : String
  baseValue : Option Val
  value1 : Option Val
  value2 : Option Val
deriving DecidableEq

structure MergeResult where
  success : Bool
  mergedData : Data
  conflicts : List Conflict
deriving DecidableEq

/-- One iteration of the `allKeys.forEach` loop of `mergeVersions`: `acc` is the
pair of the merged-data object under mutation and the conflict list so far.
The source binds `baseVal`, `val1`, `val2` to the stringified values; here the
lookups are inlined. -/
def mergeStep (baseData data1 data2 : Data) (acc : Data × List Conflict) (k : String) :
    Data × List Conflict :=
  if lookupE data1 k = lookupE baseData k ∧ lookupE data2 k = lookupE baseData k then
    -- Case 1: unchanged in both; re-assign the base value when the key is in base
    (match lookupE baseData k with
     | some b => setEntry acc.1 k b
     | none => acc.1, acc.2)
  else if lookupE data2 k = lookupE baseData k then
    -- Case 2: only version1 changed the key
    (match lookupE data1 k with
     | some a => setEntry acc.1 k a
     | none => delEntry acc.1 k, acc.2)
  else if lookupE data1 k = lookupE baseData k then
    -- Case 3: only version2 changed the key
    (match lookupE data2 k with
     | some b => setEntry acc.1 k b
     | none => delEntry acc.1 k, acc.2)
  else if lookupE data1 k = lookupE data2 k then
    -- Case 4a: both changed to the same value
    (match lookupE data1 k with
     | some a => setEntry acc.1 k a
     | none => delEntry acc.1 k, acc.2)
  else
    -- Case 4b: conflict, both changed to different values
    (acc.1, acc.2 ++ [{ key := k, baseValue := lookupE baseData k,
                        value1 := lookupE data1 k, value2 := lookupE data2 k }])

/-- The body of `mergeVersions`, on the three `data` objects. -/
def mergeCore (baseData data1 data2 : Data) : MergeResult :=
  let allKeys := dedupFirst (keysOf baseData ++ keysOf data1 ++ keysOf data2)
  let looped := allKeys.foldl (mergeStep baseData data1 data2) (baseData, [])
  let mergedData := looped.2.foldl (fun d c => delEntry d c.key) looped.1
  { success := looped.2.isEmpty, mergedData := mergedData, conflicts := looped.2 }

/-- `mergeVersions(baseVersion, version1, version2)`. -/
def mergeVersions (baseVersion version1 version2 : Version) : MergeResult :=
  mergeCore baseVersion.data version1.data version2.data

/-- The key `k` is a merge conflict: both sides changed it relative to base, to
different values. -/
def isConflictAt (baseData data1 data2 : Data) (k : String) : Bool :=
  decide (¬ (lookupE data1 k = lookupE baseData k)
    ∧ ¬ (lookupE data2 k = lookupE baseData k)
    ∧ ¬ (lookupE data1 k = lookupE data2 k))

/-- The conflict record pushed by `mergeVersions` for key `k`. -/
def mkConflict (baseData data1 data2 : Data) (k : String) : Conflict :=
  { key := k, baseValue := lookupE baseData k,
    value1 := lookupE data1 k, value2 := lookupE data2 k }

/-- The value the merged data holds at key `k` after the `forEach` loop but
before conflicting keys are deleted. -/
def loopValueAt (baseData data1 data2 : Data) (k : String) : Option Val :=
  if lookupE data1 k = lookupE baseData k ∧ lookupE data2 k = lookupE baseData k then
    lookupE baseData k
  else if lookupE data2 k = lookupE baseData k then lookupE data1 k
  else if lookupE data1 k = lookupE baseData k then lookupE data2 k
  else if lookupE data1 k = lookupE data2 k then lookupE data1 k
  else lookupE baseData k

/-- The value the final merged data holds at key `k` (conflicting keys deleted). -/
def mergedValueAt (baseData data1 data2 : Data) (k : String) : Option Val :=
  if lookupE data1 k = lookupE baseData k ∧ lookupE data2 k = lookupE baseData k then
    lookupE baseData k
  else if lookupE data2 k = lookupE baseData k then lookupE data1 k
  else if lookupE data1 k = lookupE baseData k then lookupE data2 k
  else if lookupE data1 k = lookupE data2 k then lookupE data1 k
  else none

theorem mergeStep_snd (baseData data1 data2 : Data) (acc : Data × List Conflict)
    (k : String) :
    (mergeStep baseData data1 data2 acc k).2 =
      acc.2 ++ (if isConflictAt baseData data1 data2 k then
        [mkConflict baseData data1 data2 k] else []) := by
  by_cases e1 : lookupE data1 k = lookupE baseData k <;>
    by_cases e2 : lookupE data2 k = lookupE baseData k <;>
    by_cases e3 : lookupE data1 k = lookupE data2 k <;>
    simp [mergeStep, isConflictAt, mkConflict, e1, e2, e3]

theorem mergeStep_fst_lookupE_ne (baseData data1 data2 : Data)
    (acc : Data × List Conflict) (k k' : String) (h : k' ≠ k) :
    lookupE (mergeStep baseData data1 data2 acc k).1 k' = lookupE acc.1 k' := by
  unfold mergeStep
  split
  · dsimp only
    split
    · exact lookupE_setEntry_ne _ _ _ _ h
    · rfl
  · split
    · dsimp only
      split
      · exact lookupE_setEntry_ne _ _ _ _ h
      · exact lookupE_delEntry_ne _ _ _ h
    · split
      · dsimp only
        split
        · exact lookupE_setEntry_ne _ _ _ _ h
        · exact lookupE_delEntry_ne _ _ _ h
      · split
        · dsimp only
          split
          · exact lookupE_setEntry_ne _ _ _ _ h
          · exact lookupE_delEntry_ne _ _ _ h
        · rfl

theorem mergeStep_fst_lookupE_self (baseData data1 data2 : Data)
    (acc : Data × List Conflict) (k : String)
    (hcur : lookupE acc.1 k = lookupE baseData k) :
    lookupE (mergeStep baseData data1 data2 acc k).1 k =
      loopValueAt baseData data1 data2 k := by
  unfold mergeStep loopValueAt
  split
  · dsimp only
    split
    · rename_i hb
      rw [hb, lookupE_setEntry_self]
    · rename_i hb
      rw [hb] at hcur ⊢
      exact hcur
  · split
    · dsimp only
      split
      · rename_i ha
        rw [ha, lookupE_setEntry_self]
      · rename_i ha
        rw [ha, lookupE_delEntry_self]
    · split
      · dsimp only
        split
        · rename_i hb
          rw [hb, lookupE_setEntry_self]
        · rename_i hb
          rw [hb, lookupE_delEntry_self]
      · split
        · dsimp only
          split
          · rename_i ha
            rw [ha, lookupE_setEntry_self]
          · rename_i ha
            rw [ha, lookupE_delEntry_self]
        · exact hcur

theorem foldl_mergeStep_snd (baseData data1 data2 : Data) (ks : List String)
    (acc : Data × List Conflict) :
    (ks.foldl (mergeStep baseData data1 data2) acc).2 =
      acc.2 ++ (ks.filter (isConflictAt baseData data1 data2)).map
        (mkConflict baseData data1 data2) := by
  induction ks generalizing acc with
  | nil => simp
  | cons k ks ih =>
    rw [List.foldl_cons, ih, mergeStep_snd, List.filter_cons]
    by_cases hc : isConflictAt baseData data1 data2 k = true
    · simp [hc]
    · simp [hc]

theorem foldl_mergeStep_fst_not_mem (baseData data1 data2 : Data) (ks : List String)
    (acc : Data × List Conflict) (k : String) (hk : k ∉ ks) :
    lookupE (ks.foldl (mergeStep baseData data1 data2) acc).1 k = lookupE acc.1 k := by
  induction ks generalizing acc with
  | nil => rfl
  | cons k0 ks ih =>
    rw [List.foldl_cons]
    rw [ih _ (fun hm => hk (List.mem_cons_of_mem _ hm))]
    exact mergeStep_fst_lookupE_ne _ _ _ _ _ _
      (fun he => hk (he ▸ List.mem_cons_self _ _))

theorem foldl_mergeStep_fst_mem (baseData data1 data2 : Data) (ks : List String)
    (acc : Data × List Conflict) (k : String) (hnd : ks.Nodup) (hk : k ∈ ks)
    (hcur : lookupE acc.1 k = lookupE baseData k) :
    lookupE (ks.foldl (mergeStep baseData data1 data2) acc).1 k =
      loopValueAt baseData data1 data2 k := by
  induction ks generalizing acc with
  | nil => cases hk
  | cons k0 ks ih =>
    rcases List.nodup_cons.mp hnd with ⟨hk0, hnd'⟩
    rw [List.foldl_cons]
    by_cases he : k = k0
    · subst he
      rw [foldl_mergeStep_fst_not_mem _ _ _ _ _ _ hk0]
      exact mergeStep_fst_lookupE_self _ _ _ _ _ hcur
    · rcases List.mem_cons.mp hk with hk' | hk'
      · exact absurd hk' he
      · exact ih _ hnd' hk' (by
          rw [mergeStep_fst_lookupE_ne _ _ _ _ _ _ he]
          exact hcur)

theorem foldl_delEntry_lookupE (cs : List Conflict) (d : Data) (k : String) :
    lookupE (cs.foldl (fun d c => delEntry d c.key) d) k =
      if k ∈ cs.map Conflict.key then none else lookupE d k := by
  induction cs generalizing d with
  | nil => simp
  | cons c cs ih =>
    rw [List.foldl_cons, ih]
    by_cases he : k = c.key
    · subst he
      simp only [List.map_cons, List.mem_cons, true_or, if_pos]
      split
      · rfl
      · exact lookupE_delEntry_self _ _
    · rw [lookupE_delEntry_ne _ _ _ he]
      simp only [List.map_cons, List.mem_cons]
      by_cases hm : k ∈ cs.map Conflict.key
      · simp [hm]
      · simp [hm, he]

theorem mergeCore_conflicts (baseData data1 data2 : Data) :
    (mergeCore baseData data1 data2).conflicts =
      ((dedupFirst (keysOf baseData ++ keysOf data1 ++ keysOf data2)).filter
        (isConflictAt baseData data1 data2)).map (mkConflict baseData data1 data2) := by
  rw [show (mergeCore baseData data1 data2).conflicts =
    ((dedupFirst (keysOf baseData ++ keysOf data1 ++ keysOf data2)).foldl
      (mergeStep baseData data1 data2) (baseData, [])).2 from rfl]
  rw [foldl_mergeStep_snd]
  rfl

theorem mergeCore_success_iff (baseData data1 data2 : Data) :
    (mergeCore baseData data1 data2).success = true ↔
      (mergeCore baseData data1 data2).conflicts = [] := by
  rw [show (mergeCore baseData data1 data2).success =
    (mergeCore baseData data1 data2).conflicts.isEmpty from rfl]
  exact List.isEmpty_iff

theorem lookupE_ne_none_mem {β : Type} {d : List (String × β)} {k : String}
    (h : ¬ lookupE d k = none) : k ∈ keysOf d := by
  by_contra hk
  exact h ((lookupE_eq_none_iff d k).mpr hk)

/-- A conflicting key occurs in the union of the three key sets. -/
theorem isConflictAt_mem (baseData data1 data2 : Data) (k : String)
    (h : isConflictAt baseData data1 data2 k = true) :
    k ∈ dedupFirst (keysOf baseData ++ keysOf data1 ++ keysOf data2) := by
  obtain ⟨n1, n2, n3⟩ := of_decide_eq_true h
  rw [mem_dedupFirst, List.mem_append, List.mem_append]
  by_cases h1 : lookupE data1 k = none
  · have h2 : ¬ lookupE data2 k = none := fun h2 => n3 (h1.trans h2.symm)
    exact Or.inr (lookupE_ne_none_mem h2)
  · exact Or.inl (Or.inr (lookupE_ne_none_mem h1))

theorem loopValueAt_eq_mergedValueAt (baseData data1 data2 : Data) (k : String)
    (h : isConflictAt baseData data1 data2 k = false) :
    loopValueAt baseData data1 data2 k = mergedValueAt baseData data1 data2 k := by
  unfold loopValueAt mergedValueAt
  by_cases e1 : lookupE data1 k = lookupE baseData k <;>
    by_cases e2 : lookupE data2 k = lookupE baseData k <;>
    by_cases e3 : lookupE data1 k = lookupE data2 k <;>
    simp [isConflictAt, e1, e2, e3] at h ⊢

/-- Pointwise characterization of the merged data produced by `mergeVersions`. -/
theorem mergeCore_lookup (baseData data1 data2 : Data) (k : String) :
    lookupE (mergeCore baseData data1 data2).mergedData k =
      mergedValueAt baseData data1 data2 k := by
  rw [show (mergeCore baseData data1 data2).mergedData =
    ((mergeCore baseData data1 data2).conflicts.foldl (fun d c => delEntry d c.key)
      ((dedupFirst (keysOf baseData ++ keysOf data1 ++ keysOf data2)).foldl
        (mergeStep baseData data1 data2) (baseData, [])).1) from rfl]
  rw [foldl_delEntry_lookupE, mergeCore_conflicts, List.map_map,
    show (Conflict.key ∘ mkConflict baseData data1 data2) = id from rfl, List.map_id]
  by_cases hc : isConflictAt baseData data1 data2 k = true
  · rw [if_pos (List.mem_filter.mpr ⟨isConflictAt_mem _ _ _ _ hc, hc⟩)]
    obtain ⟨n1, n2, n3⟩ := of_decide_eq_true hc
    unfold mergedValueAt
    rw [if_neg (fun hand => n1 hand.1), if_neg n2, if_neg n1, if_neg n3]
  · have hc' : isConflictAt baseData data1 data2 k = false := by
      revert hc; cases isConflictAt baseData data1 data2 k <;> simp
    rw [if_neg (fun hmem => hc (List.mem_filter.mp hmem).2)]
    by_cases hm : k ∈ dedupFirst (keysOf baseData ++ keysOf data1 ++ keysOf data2)
    · rw [foldl_mergeStep_fst_mem baseData data1 data2 _ (baseData, []) k
        (nodup_dedupFirst _) hm rfl]
      exact loopValueAt_eq_mergedValueAt _ _ _ _ hc'
    · rw [foldl_mergeStep_fst_not_mem _ _ _ _ _ _ hm]
      rw [mem_dedupFirst, List.mem_append, List.mem_append] at hm
      push_neg at hm
      have hb : lookupE baseData k = none := (lookupE_eq_none_iff _ _).mpr hm.1.1
      have h1 : lookupE data1 k = none := (lookupE_eq_none_iff _ _).mpr hm.1.2
      have h2 : lookupE data2 k = none := (lookupE_eq_none_iff _ _).mpr hm.2
      unfold mergedValueAt
      rw [hb, h1, h2]
      simp

/-- **C1.** Per-key behaviour of the three-way merge: an unchanged key keeps the
base value (in particular it is absent when absent from base); a key changed on
exactly one side takes that side's value, absent when that side deleted it; a
key changed identically on both sides takes the common value; a key changed
differently on the two sides produces the conflict record
`{key, baseValue, value1, value2}` and is absent from the merged data; and the
`success` flag is true iff the conflict list is empty. -/
theorem C1_merge_per_key (baseVersion version1 version2 : Version) (k : String) :
    (lookupE version1.data k = lookupE baseVersion.data k →
      lookupE version2.data k = lookupE baseVersion.data k →
      lookupE (mergeVersions baseVersion version1 version2).mergedData k =
        lookupE baseVersion.data k)
    ∧ (¬ lookupE version1.data k = lookupE baseVersion.data k →
      lookupE version2.data k = lookupE baseVersion.data k →
      lookupE (mergeVersions baseVersion version1 version2).mergedData k =
        lookupE version1.data k)
    ∧ (lookupE version1.data k = lookupE baseVersion.data k →
      ¬ lookupE version2.data k = lookupE baseVersion.data k →
      lookupE (mergeVersions baseVersion version1 version2).mergedData k =
        lookupE version2.data k)
    ∧ (¬ lookupE version1.data k = lookupE baseVersion.data k →
      ¬ lookupE version2.data k = lookupE baseVersion.data k →
      lookupE version1.data k = lookupE version2.data k →
      lookupE (mergeVersions baseVersion version1 version2).mergedData k =
        lookupE version1.data k)
    ∧ (¬ lookupE version1.data k = lookupE baseVersion.data k →
      ¬ lookupE version2.data k = lookupE baseVersion.data k →
      ¬ lookupE version1.data k = lookupE version2.data k →
      (Conflict.mk k (lookupE baseVersion.data k) (lookupE version1.data k)
          (lookupE version2.data k) ∈
        (mergeVersions baseVersion version1 version2).conflicts
      ∧ lookupE (mergeVersions baseVersion version1 version2).mergedData k = none))
    ∧ ((mergeVersions baseVersion version1 version2).success = true ↔
      (mergeVersions baseVersion version1 version2).conflicts = []) := by
  refine ⟨?_, ?_, ?_, ?_, ?_, mergeCore_success_iff _ _ _⟩
  · intro e1 e2
    rw [show mergeVersions baseVersion version1 version2 =
      mergeCore baseVersion.data version1.data version2.data from rfl,
      mergeCore_lookup]
    unfold mergedValueAt
    rw [if_pos ⟨e1, e2⟩]
  · intro e1 e2
    rw [show mergeVersions baseVersion version1 version2 =
      mergeCore baseVersion.data version1.data version2.data from rfl,
      mergeCore_lookup]
    unfold mergedValueAt
    rw [if_neg (fun hand => e1 hand.1), if_pos e2]
  · intro e1 e2
    rw [show mergeVersions baseVersion version1 version2 =
      mergeCore baseVersion.data version1.data version2.data from rfl,
      mergeCore_lookup]
    unfold mergedValueAt
    rw [if_neg (fun hand => e2 hand.2), if_neg e2, if_pos e1]
  · intro e1 e2 e3
    rw [show mergeVersions baseVersion version1 version2 =
      mergeCore baseVersion.data version1.data version2.data from rfl,
      mergeCore_lookup]
    unfold mergedValueAt
    rw [if_neg (fun hand => e1 hand.1), if_neg e2, if_neg e1, if_pos e3]
  · intro e1 e2 e3
    have hc : isConflictAt baseVersion.data version1.data version2.data k = true :=
      decide_eq_true ⟨e1, e2, e3⟩
    constructor
    · rw [show (mergeVersions baseVersion version1 version2).conflicts =
        (mergeCore baseVersion.data version1.data version2.data).conflicts from rfl,
        mergeCore_conflicts]
      exact List.mem_map.mpr ⟨k,
        List.mem_filter.mpr ⟨isConflictAt_mem _ _ _ _ hc, hc⟩, rfl⟩
    · rw [show mergeVersions baseVersion version1 version2 =
        mergeCore baseVersion.data version1.data version2.data from rfl,
        mergeCore_lookup]
      unfold mergedValueAt
      rw [if_neg (fun hand => e1 hand.1), if_neg e2, if_neg e1, if_neg e3]

/-- Witness for C1: on base `{x:0}`, side A `{x:1}`, side B `{x:2}` the merge
emits the conflict `{key:"x", baseValue:0, value1:1, value2:2}`, omits `x` from
the merged data, and reports failure. -/
def c1Base : Version :=
  { id := "b0", parentId := none, mergeParentId := none,
    data := [("x", Val.vnum 0)], timestamp := 0, message := "base", author := "User" }

def c1SideA : Version :=
  { id := "a1", parentId := some "b0", mergeParentId := none,
    data := [("x", Val.vnum 1)], timestamp := 1, message := "A", author := "User" }

def c1SideB : Version :=
  { id := "b1", parentId := some "b0", mergeParentId := none,
    data := [("x", Val.vnum 2)], timestamp := 2, message := "B", author := "User" }

theorem C1_merge_per_key_witness :
    Conflict.mk "x" (some (Val.vnum 0)) (some (Val.vnum 1)) (some (Val.vnum 2)) ∈
        (mergeVersions c1Base c1SideA c1SideB).conflicts
      ∧ lookupE (mergeVersions c1Base c1SideA c1SideB).mergedData "x" = none :=
  (C1_merge_per_key c1Base c1SideA c1SideB "x").2.2.2.2.1
    (by decide) (by decide) (by decide)

/-- **C5.** Merging when side B is unchanged from base always succeeds with no
conflicts, and the merged data agrees pointwise with side A's data: A's
additions, modifications and deletions are all honored. -/
theorem C5_merge_one_sided (baseVersion versionA : Version) :
    (mergeVersions baseVersion versionA baseVersion).success = true
    ∧ (mergeVersions baseVersion versionA baseVersion).conflicts = []
    ∧ (∀ k, lookupE (mergeVersions baseVersion versionA baseVersion).mergedData k =
        lookupE versionA.data k) := by
  have hconf : (mergeVersions baseVersion versionA baseVersion).conflicts = [] := by
    rw [show (mergeVersions baseVersion versionA baseVersion).conflicts =
      (mergeCore baseVersion.data versionA.data baseVersion.data).conflicts from rfl,
      mergeCore_conflicts]
    rw [List.map_eq_nil_iff, List.filter_eq_nil_iff]
    intro k _
    simp [isConflictAt]
  refine ⟨(mergeCore_success_iff _ _ _).mpr hconf, hconf, fun k => ?_⟩
  rw [show mergeVersions baseVersion versionA baseVersion =
    mergeCore baseVersion.data versionA.data baseVersion.data from rfl,
    mergeCore_lookup]
  unfold mergedValueAt
  by_cases e1 : lookupE versionA.data k = lookupE baseVersion.data k
  · rw [if_pos ⟨e1, rfl⟩, e1]
  · rw [if_neg (fun hand => e1 hand.1), if_pos rfl]

/-- Swapping the two sides of a conflict record. -/
def swapConflict (c : Conflict) : Conflict :=
  { key := c.key, baseValue := c.baseValue, value1 := c.value2, value2 := c.value1 }

theorem isConflictAt_symm (baseData data1 data2 : Data) (k : String) :
    isConflictAt baseData data2 data1 k = isConflictAt baseData data1 data2 k := by
  unfold isConflictAt
  by_cases e1 : lookupE data1 k = lookupE baseData k <;>
    by_cases e2 : lookupE data2 k = lookupE baseData k <;>
    by_cases e3 : lookupE data1 k = lookupE data2 k <;>
    simp [e1, e2, e3, eq_comm]

theorem mergedValueAt_symm (baseData data1 data2 : Data) (k : String) :
    mergedValueAt baseData data2 data1 k = mergedValueAt baseData data1 data2 k := by
  by_cases e1 : lookupE data1 k = lookupE baseData k <;>
    by_cases e2 : lookupE data2 k = lookupE baseData k <;>
    by_cases e3 : lookupE data1 k = lookupE data2 k
  ·     rw [show mergedValueAt baseData data2 data1 k = lookupE baseData k from by
        unfold mergedValueAt; rw [if_pos ⟨e2, e1⟩],
      show mergedValueAt baseData data1 data2 k = lookupE baseData k from by
        unfold mergedValueAt; rw [if_pos ⟨e1, e2⟩]]
  ·     rw [show mergedValueAt baseData data2 data1 k = lookupE baseData k from by
        unfold mergedValueAt; rw [if_pos ⟨e2, e1⟩],
      show mergedValueAt baseData data1 data2 k = lookupE baseData k from by
        unfold mergedValueAt; rw [if_pos ⟨e1, e2⟩]]
  ·     rw [show mergedValueAt baseData data2 data1 k = lookupE data2 k from by
        unfold mergedValueAt
        rw [if_neg (fun hand => e2 hand.1), if_pos e1],
      show mergedValueAt baseData data1 data2 k = lookupE data2 k from by
        unfold mergedValueAt
        rw [if_neg (fun hand => e2 hand.2), if_neg e2, if_pos e1]]
  ·     rw [show mergedValueAt baseData data2 data1 k = lookupE data2 k from by
        unfold mergedValueAt
        rw [if_neg (fun hand => e2 hand.1), if_pos e1],
      show mergedValueAt baseData data1 data2 k = lookupE data2 k from by
        unfold mergedValueAt
        rw [if_neg (fun hand => e2 hand.2), if_neg e2, if_pos e1]]
  ·     rw [show mergedValueAt baseData data2 data1 k = lookupE data1 k from by
        unfold mergedValueAt
        rw [if_neg (fun hand => e1 hand.2), if_neg e1, if_pos e2],
      show mergedValueAt baseData data1 data2 k = lookupE data1 k from by
        unfold mergedValueAt
        rw [if_neg (fun hand => e1 hand.1), if_pos e2]]
  ·     rw [show mergedValueAt baseData data2 data1 k = lookupE data1 k from by
        unfold mergedValueAt
        rw [if_neg (fun hand => e1 hand.2), if_neg e1, if_pos e2],
      show mergedValueAt baseData data1 data2 k = lookupE data1 k from by
        unfold mergedValueAt
        rw [if_neg (fun hand => e1 hand.1), if_pos e2]]
  ·     rw [show mergedValueAt baseData data2 data1 k = lookupE data2 k from by
        unfold mergedValueAt
        rw [if_neg (fun hand => e1 hand.2), if_neg e1, if_neg e2,
          if_pos (Eq.symm e3)],
      show mergedValueAt baseData data1 data2 k = lookupE data1 k from by
        unfold mergedValueAt
        rw [if_neg (fun hand => e1 hand.1), if_neg e2, if_neg e1, if_pos e3]]
        exact e3.symm
  ·     rw [show mergedValueAt baseData data2 data1 k = none from by
        unfold mergedValueAt
        rw [if_neg (fun hand => e1 hand.2), if_neg e1, if_neg e2,
          if_neg (fun he => e3 he.symm)],
      show mergedValueAt baseData data1 data2 k = none from by
        unfold mergedValueAt
        rw [if_neg (fun hand => e1 hand.1), if_neg e2, if_neg e1, if_neg e3]]

/-- Keys of a data object occur in the merged key union. -/
theorem mem_allKeys_of_mem_left (baseData data1 data2 : Data) {k : String}
    (h : k ∈ keysOf data1) :
    k ∈ dedupFirst (keysOf baseData ++ keysOf data1 ++ keysOf data2) := by
  rw [mem_dedupFirst, List.mem_append, List.mem_append]
  exact Or.inl (Or.inr h)

/-- Characterization of conflict-list membership. -/
theorem mem_mergeCore_conflicts (baseData data1 data2 : Data) (c : Conflict) :
    c ∈ (mergeCore baseData data1 data2).conflicts ↔
      (isConflictAt baseData data1 data2 c.key = true
        ∧ c = mkConflict baseData data1 data2 c.key) := by
  rw [mergeCore_conflicts]
  constructor
  · intro hm
    obtain ⟨k, hk, hc⟩ := List.mem_map.mp hm
    obtain ⟨-, hfilt⟩ := List.mem_filter.mp hk
    subst hc
    exact ⟨hfilt, rfl⟩
  · rintro ⟨hconf, hc⟩
    exact List.mem_map.mpr ⟨c.key,
      List.mem_filter.mpr ⟨isConflictAt_mem _ _ _ _ hconf, hconf⟩, hc.symm⟩

/-- **C10.** Merge is symmetric in its two sides: swapping side A and side B
preserves the success flag, maps each conflict to the conflict with the two side
values swapped (hence the conflict lists cover the same keys), and produces
pointwise equal merged data. -/
theorem C10_merge_symmetric (baseVersion versionA versionB : Version) :
    (mergeVersions baseVersion versionA versionB).success =
      (mergeVersions baseVersion versionB versionA).success
    ∧ (∀ c, c ∈ (mergeVersions baseVersion versionA versionB).conflicts ↔
        swapConflict c ∈ (mergeVersions baseVersion versionB versionA).conflicts)
    ∧ (∀ k, lookupE (mergeVersions baseVersion versionA versionB).mergedData k =
        lookupE (mergeVersions baseVersion versionB versionA).mergedData k) := by
  have hmem : ∀ c, c ∈ (mergeVersions baseVersion versionA versionB).conflicts ↔
      swapConflict c ∈ (mergeVersions baseVersion versionB versionA).conflicts := by
    intro c
    rw [show (mergeVersions baseVersion versionA versionB).conflicts =
      (mergeCore baseVersion.data versionA.data versionB.data).conflicts from rfl]
    rw [show (mergeVersions baseVersion versionB versionA).conflicts =
      (mergeCore baseVersion.data versionB.data versionA.data).conflicts from rfl]
    rw [mem_mergeCore_conflicts, mem_mergeCore_conflicts]
    rw [show (swapConflict c).key = c.key from rfl]
    rw [isConflictAt_symm]
    constructor
    · rintro ⟨hconf, hc⟩
      refine ⟨hconf, ?_⟩
      rw [hc]
      rfl
    · rintro ⟨hconf, hc⟩
      refine ⟨hconf, ?_⟩
      have := congrArg swapConflict hc
      rw [show swapConflict (swapConflict c) = c from rfl] at this
      rw [this]
      rfl
  refine ⟨?_, hmem, fun k => ?_⟩
  · have hnil : (mergeVersions baseVersion versionA versionB).conflicts = [] ↔
        (mergeVersions baseVersion versionB versionA).conflicts = [] := by
      constructor
      · intro h
        rcases hl : (mergeVersions baseVersion versionB versionA).conflicts with _ | ⟨c, cs⟩
        · rfl
        · have hc : swapConflict c ∈
              (mergeVersions baseVersion versionA versionB).conflicts := by
            have hsw := (hmem (swapConflict c)).mpr
            rw [show swapConflict (swapConflict c) = c from rfl] at hsw
            exact hsw (hl ▸ List.mem_cons_self _ _)
          rw [h] at hc
          cases hc
      · intro h
        rcases hl : (mergeVersions baseVersion versionA versionB).conflicts with _ | ⟨c, cs⟩
        · rfl
        · have hc := (hmem c).mp (hl ▸ List.mem_cons_self _ _)
          rw [h] at hc
          cases hc
    rcases hs : (mergeVersions baseVersion versionA versionB).success with _ | _
    · rcases hs' : (mergeVersions baseVersion versionB versionA).success with _ | _
      · rfl
      · have h1 := (mergeCore_success_iff baseVersion.data versionB.data versionA.data).mp hs'
        have h2 := hnil.mpr h1
        have h3 := (mergeCore_success_iff baseVersion.data versionA.data versionB.data).mpr h2
        exact hs.symm.trans h3
    · rcases hs' : (mergeVersions baseVersion versionB versionA).success with _ | _
      · have h1 := (mergeCore_success_iff baseVersion.data versionA.data versionB.data).mp hs
        have h2 := hnil.mp h1
        have h3 := (mergeCore_success_iff baseVersion.data versionB.data versionA.data).mpr h2
        exact (hs'.symm.trans h3).symm
      · rfl
  · rw [show mergeVersions baseVersion versionA versionB =
      mergeCore baseVersion.data versionA.data versionB.data from rfl,
      show mergeVersions baseVersion versionB versionA =
      mergeCore baseVersion.data versionB.data versionA.data from rfl,
      mergeCore_lookup, mergeCore_lookup, mergedValueAt_symm]

/-! ## Ancestor Resolver

Embedding of `findCommonAncestor` from `reality-fork/src/utils/versionControl.js`
(lines 202–234).  The source runs two unbounded `while` loops following
`parentId` links through `allVersions.find(...)`; here each loop carries an
explicit iteration budget `fuel`: with any fuel at least the (finite) chain
length the functions compute exactly what the loops compute, and a chain that
exhausts every fuel corresponds to a loop that never terminates. -/

/-- `allVersions.find(v => v.id === vid)` — the first version with the given id. -/
def findVersion (allVersions : List Version) (vid : String) : Option Version :=
  allVersions.find? (fun v => decide (v.id = vid))

/-- The sequence of versions visited by one ancestor walk (`while (current)`
following `parentId` through `find`), truncated to `fuel` iterations. -/
def chainFrom : Nat → List Version → Version → List Version
  | 0, _, _ => []
  | fuel + 1, allVersions, v =>
    v :: (match v.parentId with
      | none => []
      | some pid =>
        match findVersion allVersions pid with
        | none => []
        | some p => chainFrom fuel allVersions p)

/-- The first loop of `findCommonAncestor`: the set (here: insertion-ordered
list) `ancestors1` of ids reachable from `version1`. -/
def collectAncestors : Nat → List Version → Version → List String
  | 0, _, _ => []
  | fuel + 1, allVersions, v =>
    v.id :: (match v.parentId with
      | none => []
      | some pid =>
        match findVersion allVersions pid with
        | none => []
        | some p => collectAncestors fuel allVersions p)

/-- The second loop of `findCommonAncestor`: walk up `version2`'s ancestry and
return the first version whose id is in `ancestors1`. -/
def walkToCommon : Nat → List Version → Version → List String → Option Version
  | 0, _, _, _ => none
  | fuel + 1, allVersions, v, ancestors1 =>
    if v.id ∈ ancestors1 then some v
    else match v.parentId with
      | none => none
      | some pid =>
        match findVersion allVersions pid with
        | none => none
        | some p => walkToCommon fuel allVersions p ancestors1

/-- `findCommonAncestor(version1, version2, allVersions)` with iteration budget
`fuel` on each of its two loops. -/
def findCommonAncestor (fuel : Nat) (version1 version2 : Version)
    (allVersions : List Version) : Option Version :=
  if allVersions.isEmpty then none
  else walkToCommon fuel allVersions version2
    (collectAncestors fuel allVersions version1)

/-- The ancestor resolver as the spec words it: build the list of ids reachable
from `version1` (inclusive), then return the first version on `version2`'s chain
whose id is in that list, `null` when the chains never intersect. -/
def specCommonAncestor (fuel : Nat) (version1 version2 : Version)
    (allVersions : List Version) : Option Version :=
  if allVersions.isEmpty then none
  else (chainFrom fuel allVersions version2).find?
    (fun w => decide (w.id ∈ (chainFrom fuel allVersions version1).map Version.id))

theorem collectAncestors_eq (fuel : Nat) (allVersions : List Version) :
    ∀ v, collectAncestors fuel allVersions v =
      (chainFrom fuel allVersions v).map Version.id := by
  induction fuel with
  | zero => intro v; rfl
  | succ n ih =>
    intro v
    rw [collectAncestors, chainFrom]
    rcases hp : v.parentId with _ | pid
    · simp [hp]
    · rcases hf : findVersion allVersions pid with _ | p
      · simp [hp, hf]
      · simp [hp, hf, ih]

theorem walkToCommon_eq (fuel : Nat) (allVersions : List Version)
    (ancestors1 : List String) :
    ∀ v, walkToCommon fuel allVersions v ancestors1 =
      (chainFrom fuel allVersions v).find? (fun w => decide (w.id ∈ ancestors1)) := by
  induction fuel with
  | zero => intro v; rfl
  | succ n ih =>
    intro v
    rw [walkToCommon, chainFrom]
    by_cases hv : v.id ∈ ancestors1
    · rw [if_pos hv, List.find?_cons_of_pos _ (by simpa using hv)]
    · rw [if_neg hv, List.find?_cons_of_neg _ (by simpa using hv)]
      rcases hp : v.parentId with _ | pid
      · simp [hp]
      · rcases hf : findVersion allVersions pid with _ | p
        · simp [hp, hf]
        · simp [hp, hf, ih]

theorem findCommonAncestor_eq_spec (fuel : Nat) (version1 version2 : Version)
    (allVersions : List Version) :
    findCommonAncestor fuel version1 version2 allVersions =
      specCommonAncestor fuel version1 version2 allVersions := by
  unfold findCommonAncestor specCommonAncestor
  by_cases he : allVersions.isEmpty
  · rw [if_pos he, if_pos he]
  · rw [if_neg he, if_neg he, walkToCommon_eq, collectAncestors_eq]

/-- A concrete version record used by the ancestry examples. -/
def mkVer (i : String) (p : Option String) (ts : Nat) : Version :=
  { id := i, parentId := p, mergeParentId := none, data := [],
    timestamp := ts, message := "m", author := "User" }

def chainRoot : Version := mkVer "root" none 0
def chainV1 : Version := mkVer "v1" (some "root") 1
def chainV2 : Version := mkVer "v2" (some "v1") 2
def chainV3 : Version := mkVer "v3" (some "v1") 3
def chainStore : List Version := [chainRoot, chainV1, chainV2, chainV3]
def soloRootA : Version := mkVer "a" none 0
def soloRootB : Version := mkVer "b" none 1

/-- **C2.** `findCommonAncestor` computes exactly the spec's description (build
the id set reachable from `v1` inclusive, walk `v2`'s chain and return the first
hit, `null` when the chains never intersect — in particular on an empty store);
on the chain `root→v1→v2`, `root→v1→v3` it returns `v1`, and on two unrelated
null-parent roots it returns `null`. -/
theorem C2_common_ancestor :
    (∀ (fuel : Nat) (version1 version2 : Version) (allVersions : List Version),
      findCommonAncestor fuel version1 version2 allVersions =
        specCommonAncestor fuel version1 version2 allVersions)
    ∧ findCommonAncestor 4 chainV2 chainV3 chainStore = some chainV1
    ∧ findCommonAncestor 2 soloRootA soloRootB [soloRootA, soloRootB] = none := by
  refine ⟨findCommonAncestor_eq_spec, ?_, ?_⟩ <;> decide

/-- Whether the ancestor `while` loop starting at `v` halts within `fuel`
iterations (it halts on reaching a null `parentId` or an id `find` cannot
resolve; the source has no other exit). -/
def walkTerminatesIn : Nat → List Version → Version → Bool
  | 0, _, _ => false
  | fuel + 1, allVersions, v =>
    match v.parentId with
    | none => true
    | some pid =>
      match findVersion allVersions pid with
      | none => true
      | some p => walkTerminatesIn fuel allVersions p

/-- A corrupted two-version store whose parent links form a cycle. -/
def cycVerA : Version := mkVer "a" (some "b") 0
def cycVerB : Version := mkVer "b" (some "a") 1
def cycStore : List Version := [cycVerA, cycVerB]

/-- Counterexample to C9: on a corrupted two-version store with a parent cycle,
the ancestor walk has not terminated after total-version-count (2) steps, nor
after 50 steps; no `IntegrityError` is raised — the walk simply keeps running. -/
theorem C9_counterexample :
    cycStore.length = 2
    ∧ walkTerminatesIn 2 cycStore cycVerA = false
    ∧ walkTerminatesIn 50 cycStore cycVerA = false := by
  refine ⟨rfl, ?_, ?_⟩ <;> decide

theorem chainFrom_length_of_not_terminated (fuel : Nat) (allVersions : List Version) :
    ∀ v, walkTerminatesIn fuel allVersions v = false →
      (chainFrom fuel allVersions v).length = fuel := by
  induction fuel with
  | zero => intro v _; rfl
  | succ n ih =>
    intro v h
    rw [walkTerminatesIn] at h
    rw [chainFrom]
    rcases hp : v.parentId with _ | pid
    · simp [hp] at h
    · rcases hf : findVersion allVersions pid with _ | p
      · simp [hp, hf] at h
      · simp only [hp, hf] at h ⊢
        simp only [List.length_cons]
        rw [ih p h]

/-- **C9 (amended).** The code has no cycle guard and no `IntegrityError`: on a
corrupted store whose parent links form a reachable cycle, the ancestor walk of
`findCommonAncestor` never terminates — for every step budget `fuel` the loop is
still running, having visited `fuel` versions. -/
theorem C9_walk_diverges_on_cycle :
    ∀ fuel : Nat, walkTerminatesIn fuel cycStore cycVerA = false
      ∧ (chainFrom fuel cycStore cycVerA).length = fuel := by
  have key : ∀ fuel : Nat, walkTerminatesIn fuel cycStore cycVerA = false
      ∧ walkTerminatesIn fuel cycStore cycVerB = false := by
    intro fuel
    induction fuel with
    | zero => exact ⟨rfl, rfl⟩
    | succ n ih =>
      constructor
      · show walkTerminatesIn n cycStore cycVerB = false
        exact ih.2
      · show walkTerminatesIn n cycStore cycVerA = false
        exact ih.1
  intro fuel
  exact ⟨(key fuel).1,
    chainFrom_length_of_not_terminated fuel cycStore cycVerA (key fuel).1⟩

/-! ## Branch Registry & Rollback Controller

The hook state (`useVersionControl`): the version list, the branch map
(name → nullable head id, a JS object), the active branch name, the current
version and the working data. -/
structure VCState where
  versions : List Version
  branches : List (String × Option String)
  currentBranch : String
  currentVersion : Option Version
  currentData : Data
deriving DecidableEq

/-- Whether a fallible operation succeeded. -/
def isOk {α : Type} : Except String α → Bool
  | Except.ok _ => true
  | Except.error _ => false

/-- JS `String.prototype.trim()` (restricted to the ASCII whitespace the
repository's inputs use). -/
def jsTrim (s : String) : String :=
  ⟨((s.data.dropWhile Char.isWhitespace).reverse.dropWhile Char.isWhitespace).reverse⟩

/-- `[a-zA-Z]`. -/
def isAsciiLetter (c : Char) : Bool :=
  (decide ('a' ≤ c) && decide (c ≤ 'z')) || (decide ('A' ≤ c) && decide (c ≤ 'Z'))

/-- `[a-zA-Z0-9_-]`. -/
def isBranchNameChar (c : Char) : Bool :=
  isAsciiLetter c || (decide ('0' ≤ c) && decide (c ≤ '9')) ||
    decide (c = '_') || decide (c = '-')

/-- The branch-name test `/^[a-zA-Z][a-zA-Z0-9_-]*$/.test(name)`. -/
def validBranchName (s : String) : Bool :=
  match s.data with
  | [] => false
  | c :: cs => isAsciiLetter c && cs.all isBranchNameChar

/-- `createBranch(branchName, fromVersionId)` from
`reality-fork/src/hooks/useVersionControl.js` (lines 117–151; the backend-backed
hook variant performs the same validation and local state updates).  Note the
duplicate check is `if (branches[name])`, a truthiness test on the stored head
id: an existing branch whose head is `null` does not trigger it. -/
def createBranch (st : VCState) (branchName : String) (fromVersionId : Option String) :
    Except String VCState :=
  let name := jsTrim branchName
  if name = "" then Except.error "Branch name is required"
  else if validBranchName name = false then
    Except.error "Branch name must start with a letter and contain only letters, numbers, hyphens, and underscores"
  else if (match lookupE st.branches name with
           | some (some _) => true
           | _ => false) then Except.error "Branch already exists"
  else
    match (match fromVersionId with
           | some fid => some fid
           | none => st.currentVersion.map Version.id) with
    | none => Except.error "No version to branch from"
    | some vid =>
      match findVersion st.versions vid with
      | none => Except.error "Source version not found"
      | some version =>
        Except.ok { st with
          branches := setEntry st.branches name (some vid),
          currentBranch := name,
          currentVersion := some version,
          currentData := version.data }

/-- `hardRollback(targetVersionId)` from the backend-integrated hook
(`src/unnamed/part_008`, lines 314–374), in its pure `useLocalStorage` branch:
keep exactly the versions whose timestamp is `<=` the target's, repoint the
current branch to the target, and reset the current version and working data to
the target's. -/
def hardRollback (st : VCState) (targetVersionId : String) : Except String VCState :=
  match findVersion st.versions targetVersionId with
  | none => Except.error "Target version not found"
  | some targetVersion =>
    Except.ok { st with
      versions := st.versions.filter
        (fun v => decide (v.timestamp ≤ targetVersion.timestamp)),
      branches := setEntry st.branches st.currentBranch (some targetVersion.id),
      currentVersion := some targetVersion,
      currentData := targetVersion.data }

/-- With pairwise distinct ids, `find` by an element's id returns that element. -/
theorem find?_id_of_nodup (l : List Version) (v : Version)
    (hnd : (l.map Version.id).Nodup) (hv : v ∈ l) :
    l.find? (fun w => decide (w.id = v.id)) = some v := by
  induction l with
  | nil => cases hv
  | cons x l ih =>
    have hnd2 : (x.id :: l.map Version.id).Nodup := by simpa using hnd
    rcases List.nodup_cons.mp hnd2 with ⟨hx, hnd'⟩
    rcases List.mem_cons.mp hv with rfl | hv'
    · rw [List.find?_cons_of_pos _ (by simp)]
    · have hne : ¬ x.id = v.id := fun he => hx (he ▸ List.mem_map_of_mem Version.id hv')
      rw [List.find?_cons_of_neg _ (by simpa using hne)]
      exact ih hnd' hv'

/-- **C3.** When `hardRollback` succeeds on a store with distinct ids: the
surviving versions are exactly those with timestamp `≤` the target's (regardless
of ancestry), the active branch is unchanged and its head now points at the
target, the working data is the target's data, the head id still resolves to the
target, and the diff between the new head and the target has no added, removed
or modified keys. -/
theorem C3_hard_rollback (st : VCState) (targetVersionId : String)
    (targetVersion : Version) (st' : VCState)
    (hnd : (st.versions.map Version.id).Nodup)
    (hfind : findVersion st.versions targetVersionId = some targetVersion)
    (hok : hardRollback st targetVersionId = Except.ok st') :
    st'.versions = st.versions.filter
      (fun v => decide (v.timestamp ≤ targetVersion.timestamp))
    ∧ (∀ v ∈ st.versions, (v ∈ st'.versions ↔ v.timestamp ≤ targetVersion.timestamp))
    ∧ st'.currentBranch = st.currentBranch
    ∧ lookupE st'.branches st.currentBranch = some (some targetVersion.id)
    ∧ st'.currentVersion = some targetVersion
    ∧ st'.currentData = targetVersion.data
    ∧ findVersion st'.versions targetVersion.id = some targetVersion
    ∧ (getDiff targetVersion targetVersion).added = []
    ∧ (getDiff targetVersion targetVersion).removed = []
    ∧ (getDiff targetVersion targetVersion).modified = [] := by
  unfold hardRollback at hok
  rw [hfind] at hok
  injection hok with hok
  subst hok
  have hmem : targetVersion ∈ st.versions := List.mem_of_find?_eq_some hfind
  refine ⟨rfl, ?_, rfl, lookupE_setEntry_self _ _ _, rfl, rfl, ?_,
    (diffCore_self targetVersion.data).1, (diffCore_self targetVersion.data).2.1,
    (diffCore_self targetVersion.data).2.2⟩
  · intro v hv
    rw [List.mem_filter]
    simp [hv]
  · have hsub : (st.versions.filter
        (fun v => decide (v.timestamp ≤ targetVersion.timestamp))).map Version.id
          |>.Sublist (st.versions.map Version.id) :=
      (List.filter_sublist _).map Version.id
    have hnd' := List.Nodup.sublist hsub hnd
    have hmem' : targetVersion ∈ st.versions.filter
        (fun v => decide (v.timestamp ≤ targetVersion.timestamp)) :=
      List.mem_filter.mpr ⟨hmem, by simp⟩
    exact find?_id_of_nodup _ _ hnd' hmem'

def rbV1 : Version := mkVer "v1" none 10
def rbV2 : Version := mkVer "v2" (some "v1") 20
def rbV3 : Version := mkVer "v3" (some "v2") 30

def rbState : VCState :=
  { versions := [rbV1, rbV2, rbV3], branches := [("main", some "v3")],
    currentBranch := "main", currentVersion := some rbV3, currentData := [] }

def rbStateAfter : VCState :=
  { versions := [rbV1, rbV2], branches := [("main", some "v2")],
    currentBranch := "main", currentVersion := some rbV2, currentData := [] }

/-- Witness for C3: rolling the three-version `main` timeline back to `v2`
(timestamp 20) deletes exactly `v3` (timestamp 30) and repoints `main` to `v2`. -/
theorem C3_hard_rollback_witness :
    hardRollback rbState "v2" = Except.ok rbStateAfter
    ∧ lookupE rbStateAfter.branches "main" = some (some "v2") :=
  ⟨by rfl,
    (C3_hard_rollback rbState "v2" rbV2 rbStateAfter (by decide) (by decide)
      (by rfl)).2.2.2.1⟩

def brV0 : Version := mkVer "v0" none 0

/-- A state with a headless branch `dev` (the spec allows `headVersionId` null:
"the branch exists but has no commits"). -/
def dupState : VCState :=
  { versions := [brV0], branches := [("main", some "v0"), ("dev", none)],
    currentBranch := "main", currentVersion := some brV0, currentData := [] }

/-- Counterexample to C7: branch `dev` already exists (with a null head), yet
`createBranch("dev", "v0")` succeeds instead of failing — the duplicate check
tests the truthiness of the stored head id, not key existence. -/
theorem C7_counterexample :
    lookupE dupState.branches "dev" = some none
    ∧ isOk (createBranch dupState "dev" (some "v0")) = true := by
  refine ⟨?_, ?_⟩ <;> decide

/-- **C7 (amended).** `createBranch` first trims the name; it fails when the
trimmed name is empty or does not match `[A-Za-z][A-Za-z0-9_-]*`, when an
existing branch of that name has a non-null head (a null-headed branch of that
name is not detected and gets overwritten), when no version id is available
(no `fromVersionId` and no current version), or when the version id does not
resolve; on success it registers the branch, switches the active branch to it
and resets the working data to the source version's data. -/
theorem C7_create_branch (st : VCState) (branchName : String)
    (fromVersionId : Option String) :
    (jsTrim branchName = "" → isOk (createBranch st branchName fromVersionId) = false)
    ∧ (validBranchName (jsTrim branchName) = false →
        isOk (createBranch st branchName fromVersionId) = false)
    ∧ (∀ hid, lookupE st.branches (jsTrim branchName) = some (some hid) →
        isOk (createBranch st branchName fromVersionId) = false)
    ∧ (fromVersionId = none → st.currentVersion = none →
        isOk (createBranch st branchName fromVersionId) = false)
    ∧ (∀ vid, fromVersionId = some vid → findVersion st.versions vid = none →
        isOk (createBranch st branchName fromVersionId) = false)
    ∧ (∀ st', createBranch st branchName fromVersionId = Except.ok st' →
        ∃ vid version,
          (fromVersionId = some vid ∨
            (fromVersionId = none ∧ st.currentVersion.map Version.id = some vid))
          ∧ findVersion st.versions vid = some version
          ∧ st' = { st with
              branches := setEntry st.branches (jsTrim branchName) (some vid),
              currentBranch := jsTrim branchName,
              currentVersion := some version,
              currentData := version.data }) := by
  refine ⟨?_, ?_, ?_, ?_, ?_, ?_⟩
  · intro h
    simp only [createBranch]
    rw [if_pos h]
    rfl
  · intro h
    simp only [createBranch]
    by_cases h0 : jsTrim branchName = ""
    · rw [if_pos h0]; rfl
    · rw [if_neg h0, if_pos h]; rfl
  · intro hid hdup
    simp only [createBranch]
    by_cases h0 : jsTrim branchName = ""
    · rw [if_pos h0]; rfl
    · by_cases h1 : validBranchName (jsTrim branchName) = false
      · rw [if_neg h0, if_pos h1]; rfl
      · rw [if_neg h0, if_neg h1]
        rw [if_pos (by rw [hdup])]
        rfl
  · intro hf hc
    simp only [createBranch]
    by_cases h0 : jsTrim branchName = ""
    · rw [if_pos h0]; rfl
    · by_cases h1 : validBranchName (jsTrim branchName) = false
      · rw [if_neg h0, if_pos h1]; rfl
      · by_cases h2 : (match lookupE st.branches (jsTrim branchName) with
          | some (some _) => true
          | _ => false) = true
        · rw [if_neg h0, if_neg h1, if_pos h2]; rfl
        · rw [if_neg h0, if_neg h1, if_neg h2]
          simp only [hf, hc, Option.map_none']
          rfl
  · intro vid hf hfind
    simp only [createBranch]
    by_cases h0 : jsTrim branchName = ""
    · rw [if_pos h0]; rfl
    · by_cases h1 : validBranchName (jsTrim branchName) = false
      · rw [if_neg h0, if_pos h1]; rfl
      · by_cases h2 : (match lookupE st.branches (jsTrim branchName) with
          | some (some _) => true
          | _ => false) = true
        · rw [if_neg h0, if_neg h1, if_pos h2]; rfl
        · rw [if_neg h0, if_neg h1, if_neg h2]
          simp only [hf]
          simp only [hfind]
          rfl
  · intro st' hok
    simp only [createBranch] at hok
    by_cases h0 : jsTrim branchName = ""
    · rw [if_pos h0] at hok; exact Except.noConfusion hok
    · rw [if_neg h0] at hok
      by_cases h1 : validBranchName (jsTrim branchName) = false
      · rw [if_pos h1] at hok; exact Except.noConfusion hok
      · rw [if_neg h1] at hok
        by_cases h2 : (match lookupE st.branches (jsTrim branchName) with
          | some (some _) => true
          | _ => false) = true
        · rw [if_pos h2] at hok; exact Except.noConfusion hok
        · rw [if_neg h2] at hok
          rcases hres : (match fromVersionId with
            | some fid => some fid
            | none => st.currentVersion.map Version.id) with _ | vid
          · simp only [hres] at hok; exact Except.noConfusion hok
          · simp only [hres] at hok
            rcases hfind : findVersion st.versions vid with _ | version
            · simp only [hfind] at hok; exact Except.noConfusion hok
            · simp only [hfind] at hok
              injection hok with hok
              subst hok
              refine ⟨vid, version, ?_, hfind, rfl⟩
              rcases hfv : fromVersionId with _ | fid
              · rw [hfv] at hres
                exact Or.inr ⟨rfl, hres⟩
              · rw [hfv] at hres
                have : fid = vid := Option.some.inj hres
                exact Or.inl (this ▸ rfl)

/-- Witness for C7 (amended): creating `"1bad"` fails (malformed name). -/
theorem C7_create_branch_witness :
    isOk (createBranch dupState "1bad" (some "v0")) = false :=
  (C7_create_branch dupState "1bad" (some "v0")).2.1 (by decide)

/-! ## Snapshot Store commit (backend `createVersion`)

Embedding of the backend commit operation: the `createVersion` controller
(`src/unnamed/part_012`, lines 45–84) composed with the mongoose `Version`
schema's field semantics (`message` has `trim: true` and `required: true`, so a
message that trims to empty fails schema validation; `author` defaults to
`"User"`).  `d = none` models a request without `data`; `message = ""` is the
only falsy string. -/
/-- The controller's parent check: `parentId` is non-null and `findOne` fails. -/
def parentMissing (store : List Version) (parentId : Option String) : Bool :=
  match parentId with
  | some p => decide (findVersion store p = none)
  | none => false

def createVersionStore (store : List Version) (newId : String)
    (parentId : Option String) (d : Option Data) (message author : String)
    (now : Nat) : Except String (List Version × Version) :=
  match d with
  | none => Except.error "Data and message are required"
  | some dd =>
    if message = "" then Except.error "Data and message are required"
    else if parentMissing store parentId then Except.error "Parent version not found"
    else if jsTrim message = "" then
      Except.error "Version validation failed: message is required"
    else
      Except.ok (store ++
        [{ id := newId, parentId := parentId, mergeParentId := none,
           data := dd, timestamp := now, message := jsTrim message,
           author := if author = "" then "User" else author }],
        { id := newId, parentId := parentId, mergeParentId := none,
          data := dd, timestamp := now, message := jsTrim message,
          author := if author = "" then "User" else author })

/-- The message stored by a successful version creation. -/
def createdMessage (r : Except String (List Version × Version)) : Option String :=
  match r with
  | Except.ok (_, v) => some v.message
  | Except.error _ => none

/-- Counterexample to C8: version creation with message `" fix "` succeeds but
the appended version carries the trimmed message `"fix"`, not the given one. -/
theorem C8_counterexample :
    createdMessage (createVersionStore [] "v1" none (some [("x", Val.vnum 1)])
      " fix " "User" 0) = some "fix"
    ∧ ¬ (" fix " = "fix") := by
  refine ⟨?_, ?_⟩ <;> decide

/-- **C8 (amended).** Backend version creation fails when the message is empty
or trims to empty (whitespace-only), when `data` is missing, and when a non-null
`parentId` does not resolve to a stored version; the operation accepts no
`mergeParentId` (created versions carry `null` there).  On success the new
version is appended to the store carrying that `parentId`, the trimmed message,
the author (defaulted to `"User"` when empty), the given data and timestamp. -/
theorem C8_create_version (store : List Version) (newId : String)
    (parentId : Option String) (d : Option Data) (message author : String)
    (now : Nat) :
    (jsTrim message = "" →
      isOk (createVersionStore store newId parentId d message author now) = false)
    ∧ (d = none →
      isOk (createVersionStore store newId parentId d message author now) = false)
    ∧ (∀ p, parentId = some p → findVersion store p = none →
      isOk (createVersionStore store newId parentId d message author now) = false)
    ∧ (∀ store' v, createVersionStore store newId parentId d message author now =
        Except.ok (store', v) →
      store' = store ++ [v] ∧ v.id = newId ∧ v.parentId = parentId
        ∧ v.mergeParentId = none ∧ v.message = jsTrim message
        ∧ v.author = (if author = "" then "User" else author)
        ∧ d = some v.data ∧ v.timestamp = now) := by
  refine ⟨?_, ?_, ?_, ?_⟩
  · intro h
    rcases hd : d with _ | dd
    · rw [show createVersionStore store newId parentId none message author now =
        Except.error "Data and message are required" from rfl]
      rfl
    · simp only [createVersionStore]
      by_cases hm : message = ""
      · rw [if_pos hm]; rfl
      · by_cases hp : parentMissing store parentId = true
        · rw [if_neg hm, if_pos hp]; rfl
        · rw [if_neg hm, if_neg hp, if_pos h]; rfl
  · intro h
    rw [h]
    rfl
  · intro p hpid hfind
    rcases hd : d with _ | dd
    · rfl
    · simp only [createVersionStore]
      by_cases hm : message = ""
      · rw [if_pos hm]; rfl
      · rw [if_neg hm, if_pos (by simp [parentMissing, hpid, hfind])]
        rfl
  · intro store' v hok
    rcases hd : d with _ | dd
    · rw [hd] at hok; exact Except.noConfusion hok
    · rw [hd] at hok
      simp only [createVersionStore] at hok
      by_cases hm : message = ""
      · rw [if_pos hm] at hok; exact Except.noConfusion hok
      · rw [if_neg hm] at hok
        by_cases hp : parentMissing store parentId = true
        · rw [if_pos hp] at hok; exact Except.noConfusion hok
        · rw [if_neg hp] at hok
          by_cases ht : jsTrim message = ""
          · rw [if_pos ht] at hok; exact Except.noConfusion hok
          · rw [if_neg ht] at hok
            injection hok with hok
            rw [Prod.mk.injEq] at hok
            obtain ⟨h1, h2⟩ := hok
            subst h2
            subst h1
            exact ⟨rfl, rfl, rfl, rfl, rfl, rfl, rfl, rfl⟩

/-- Witness for C8 (amended): a whitespace-only message is rejected. -/
theorem C8_create_version_witness :
    isOk (createVersionStore [] "a" none (some []) "   " "User" 0) = false :=
  (C8_create_version [] "a" none (some []) "   " "User" 0).1 (by decide)

end RealityFork
